import Mathlib

/-!
Verification of the NIST-style randomness test battery in
SourceCode/RandomnessTests.py (class RandomnessTester, class BinaryMatrix).

Modelling conventions:
* A binary string of '0'/'1' characters is a `List Bool` (`true` = '1').
* Python floats are modelled as exact rationals (`ℚ`).
* Python's `/` raises `ZeroDivisionError` on a zero denominator; fallible
  divisions are modelled by `pydiv`, returning `none` where Python raises.
* The external scipy/numpy special functions (`spc.erfc`, `spc.gammaincc`,
  `math.exp`, `math.sqrt`) are abstract parameters, bundled in `SpecialFuns`
  together with the facts the design assumes about them (ranges of the real
  functions on the domains actually used).  Concrete model instances
  (`modelSF`, `cexSF`) are used to evaluate the code on concrete inputs.
-/

/-- Python float division: `a / b` raises `ZeroDivisionError` when `b == 0`. -/
def pydiv (a b : ℚ) : Option ℚ := if b = 0 then none else some (a / b)

/-- The external special functions used by RandomnessTests.py, together with
the standard facts about the real functions that the tests rely on:
`erfc` maps `[0, ∞)` into `[0, 1]`, the regularized upper incomplete gamma
`Q(a, x)` lies in `[0, 1]` for `a > 0`, `x ≥ 0`, `exp` is positive, and
`sqrt` is positive on `[1, ∞)`. -/
structure SpecialFuns where
  erfc : ℚ → ℚ
  gammaincc : ℚ → ℚ → ℚ
  exp : ℚ → ℚ
  sqrt : ℚ → ℚ
  erfc_mem : ∀ x, 0 ≤ x → 0 ≤ erfc x ∧ erfc x ≤ 1
  gammaincc_mem : ∀ a x, 0 < a → 0 ≤ x → 0 ≤ gammaincc a x ∧ gammaincc a x ≤ 1
  exp_pos : ∀ x, 0 < exp x
  sqrt_pos : ∀ x, 1 ≤ x → 0 < sqrt x

/-- A concrete square-root stand-in for model instances: it agrees with the
real square root on the perfect squares that the concrete evaluations below
reach, and is positive on `[1, ∞)`. -/
def mSqrt (q : ℚ) : ℚ :=
  if q = 4 then 2 else if q = 9 then 3 else if q = 16 then 4 else
  if q < 1 then 0 else q

/-- A model instance of the special-function interface used to evaluate the
embedded tests on concrete inputs. -/
def modelSF : SpecialFuns where
  erfc := fun _ => 1/2
  gammaincc := fun _ _ => 1/2
  exp := fun _ => 1/2
  sqrt := mSqrt
  erfc_mem := by intro x _; norm_num
  gammaincc_mem := by intro a x _ _; norm_num
  exp_pos := by intro x; norm_num
  sqrt_pos := by
    intro x hx
    unfold mSqrt
    split_ifs with h1 h2 h3 h4
    · norm_num
    · norm_num
    · norm_num
    · linarith
    · linarith

/-- A second model instance, mirroring the real values `erfc(0) = 1` and
`gammaincc(1, 1) = 1/e ≈ 0.3679` at the points reached below. -/
def cexSF : SpecialFuns where
  erfc := fun x => if x = 0 then 1 else 1/2
  gammaincc := fun _ _ => 3679/10000
  exp := fun _ => 1/2
  sqrt := mSqrt
  erfc_mem := by intro x _; simp only []; split_ifs <;> norm_num
  gammaincc_mem := by intro a x _ _; norm_num
  exp_pos := by intro x; norm_num
  sqrt_pos := modelSF.sqrt_pos

/-- RandomnessTester.monobit: count = (#ones − #zeros); sobs = count/sqrt(n);
p = erfc(|sobs| / sqrt(2)).  For n = 0 the division `count / math.sqrt(0)`
raises (`pydiv`); for n ≥ 1, `math.sqrt(2) > 0` so the inner division cannot
raise and is modelled by plain rational division. -/
def monobit (SF : SpecialFuns) (bin : List Bool) : Option ℚ :=
  let count : ℤ := bin.foldl (fun c b => if b then c + 1 else c - 1) 0
  (pydiv (count : ℚ) (SF.sqrt (bin.length : ℚ))).map
    (fun sobs => SF.erfc (|sobs| / SF.sqrt 2))

/-- RandomnessTester.block_frequency: num_blocks = floor(n / M) blocks of M
bits; per block the ones-proportion pi = ones/M; chi² = 4·M·Σ(pi − 1/2)²;
p = gammaincc(num_blocks/2, chi²/2).  `block_size = 0` makes
`math.floor(len/block_size)` raise. -/
def block_frequency (SF : SpecialFuns) (bin : List Bool) (block_size : ℕ) : Option ℚ :=
  if block_size = 0 then none
  else
    let num_blocks := bin.length / block_size
    let proportion_sum : ℚ :=
      (List.range num_blocks).foldl
        (fun acc i =>
          acc + ((((bin.drop (i * block_size)).take block_size).count true : ℚ)
                   / (block_size : ℚ) - 1/2)^2) 0
    let chi_squared : ℚ := 4 * (block_size : ℚ) * proportion_sum
    some (SF.gammaincc ((num_blocks : ℚ)/2) (chi_squared/2))

/-- The loop `for i in range(1, n): if bin_data[i] != bin_data[i-1]: vobs += 1`:
the number of adjacent positions holding different bits. -/
def transitions : List Bool → ℕ
  | [] => 0
  | [_] => 0
  | a :: b :: rest => (if a ≠ b then 1 else 0) + transitions (b :: rest)

/-- RandomnessTester.independent_runs: p = ones/n (raises for n = 0);
tau = 2/sqrt(n); if |p − 1/2| > tau return 0.0; else vobs = 1 + transitions,
p_val = erfc(|vobs − 2n·p·(1−p)| / (2·sqrt(2n)·p·(1−p))), where the division
raises when the denominator is zero.  (For the tau division, n ≥ 1 holds once
`ones/n` has succeeded, so `math.sqrt(n) > 0` and it cannot raise.) -/
def independent_runs (SF : SpecialFuns) (bin : List Bool) : Option ℚ :=
  let n := bin.length
  match pydiv (bin.count true : ℚ) (n : ℚ) with
  | none => none
  | some p =>
    let tau := 2 / SF.sqrt (n : ℚ)
    if |p - 1/2| > tau then some 0
    else
      let vobs : ℚ := 1 + (transitions bin : ℚ)
      let num := |vobs - 2 * (n : ℚ) * p * (1 - p)|
      let den := 2 * SF.sqrt (2 * (n : ℚ)) * p * (1 - p)
      (pydiv num den).map SF.erfc

/-- One step of the longest-run-of-ones scan inside a block: on '1' the
current run is extended and the maximum updated, on '0' the maximum is
updated and the run reset. -/
def maxRunStep (s : ℕ × ℕ) (b : Bool) : ℕ × ℕ :=
  if b then (max s.1 (s.2 + 1), s.2 + 1) else (max s.1 s.2, 0)

/-- The per-block longest run of ones (with the final `max` the source applies
after the loop). -/
def maxRunOnes (block : List Bool) : ℕ :=
  let s := block.foldl maxRunStep (0, 0)
  max s.1 s.2

/-- The regime table of RandomnessTester.longest_runs: (k, m, v_values,
pik_values) selected by the sequence length (only reached when n ≥ 128). -/
def lrParams (n : ℕ) : ℕ × ℕ × List ℕ × List ℚ :=
  if n < 6272 then
    (3, 8, [1, 2, 3, 4],
     [21484375/100000000, 3671875/10000000, 23046875/100000000, 1875/10000])
  else if n < 75000 then
    (5, 128, [4, 5, 6, 7, 8, 9],
     [1174035788/10000000000, 242955959/1000000000, 249363483/1000000000,
      17517706/100000000, 102701071/1000000000, 112398847/1000000000])
  else
    (6, 10000, [10, 11, 12, 13, 14, 15, 16],
     [882/10000, 2092/10000, 2483/10000, 1933/10000, 1208/10000,
      675/10000, 727/10000])

/-- The frequency-bucket update for one block of longest_runs: the three
independent `if`s of the source (below-first-boundary, equal-to-a-boundary,
above-last-boundary). -/
def updateFreq (v : List ℕ) (k : ℕ) (mrc : ℕ) (f : List ℕ) : List ℕ :=
  let f1 := if mrc < v.getD 0 0 then f.set 0 (f.getD 0 0 + 1) else f
  let f2 := (List.range k).foldl
    (fun g j => if mrc = v.getD j 0 then g.set j (g.getD j 0 + 1) else g) f1
  if v.getD (k-1) 0 < mrc then f2.set k (f2.getD k 0 + 1) else f2

/-- The chi-squared accumulation loop `chi += num_i / den_i` shared by
longest_runs, matrix_rank and non_overlapping_patterns, where each division
raises on a zero denominator. -/
def chiFold (ns ds : ℕ → ℚ) (idx : List ℕ) : Option ℚ :=
  idx.foldl (fun acc i => acc.bind (fun x => (pydiv (ns i) (ds i)).map (fun t => x + t)))
    (some 0)

/-- RandomnessTester.longest_runs: returns the skip sentinel −1.0 for
n < 128; otherwise selects the regime, tallies the per-block longest runs
into k+1 buckets, and returns gammaincc(k/2, chi²/2). -/
def longest_runs (SF : SpecialFuns) (bin : List Bool) : Option ℚ :=
  if bin.length < 128 then some (-1)
  else
    let n := bin.length
    let k := (lrParams n).1
    let m := (lrParams n).2.1
    let v := (lrParams n).2.2.1
    let pik := (lrParams n).2.2.2
    let num_blocks := n / m
    let freq := (List.range num_blocks).foldl
      (fun f i => updateFreq v k (maxRunOnes ((bin.drop (i * m)).take m)) f)
      (List.replicate (k+1) 0)
    (chiFold
      (fun i => ((freq.getD i 0 : ℚ) - (num_blocks : ℚ) * pik.getD i 0)^2)
      (fun i => (num_blocks : ℚ) * pik.getD i 0)
      (List.range (k+1))).map
      (fun c => SF.gammaincc ((k : ℚ)/2) (c/2))

/-- A binary matrix, row-major, as manipulated by class BinaryMatrix. -/
abbrev Mat := List (List Bool)

/-- `self.A[i][j] == 1` (out-of-range reads do not occur on the shapes the
suite builds; `getD` supplies a harmless default). -/
def getEntry (A : Mat) (i j : ℕ) : Bool := (A.getD i []).getD j false

/-- `(A[j,:] + A[i,:]) % 2`: entrywise xor of two rows. -/
def xorRows (r s : List Bool) : List Bool := List.zipWith xor r s

/-- BinaryMatrix.swap_rows: temp = A[i]; A[i] = A[ix]; A[ix] = temp. -/
def swapRows (A : Mat) (i ix : ℕ) : Mat := (A.set i (A.getD ix [])).set ix (A.getD i [])

/-- BinaryMatrix.perform_row_operations, forward: for j in i+1..M−1,
if A[j][i] == 1 then row j ^= row i. -/
def rowOpsF (A : Mat) (i M : ℕ) : Mat :=
  (List.range' (i+1) (M - (i+1))).foldl
    (fun B j => if getEntry B j i then B.set j (xorRows (B.getD j []) (B.getD i [])) else B) A

/-- BinaryMatrix.perform_row_operations, backward: for j in i−1 down to 0. -/
def rowOpsB (A : Mat) (i : ℕ) : Mat :=
  ((List.range i).reverse).foldl
    (fun B j => if getEntry B j i then B.set j (xorRows (B.getD j []) (B.getD i [])) else B) A

/-- BinaryMatrix.find_unit_element_swap, forward: first row below i with a 1
in column i. -/
def findSwapF (A : Mat) (i M : ℕ) : Option ℕ :=
  (List.range' (i+1) (M - (i+1))).find? (fun idx => getEntry A idx i)

/-- BinaryMatrix.find_unit_element_swap, backward: first row above i
(searching downward) with a 1 in column i. -/
def findSwapB (A : Mat) (i : ℕ) : Option ℕ :=
  ((List.range i).reverse).find? (fun idx => getEntry A idx i)

/-- One forward-elimination step of BinaryMatrix.compute_rank at row i. -/
def fwdStep (M : ℕ) (A : Mat) (i : ℕ) : Mat :=
  if getEntry A i i then rowOpsF A i M
  else
    match findSwapF A i M with
    | some ix => rowOpsF (swapRows A i ix) i M
    | none => A

/-- One backward-elimination step of BinaryMatrix.compute_rank at row i. -/
def bwdStep (A : Mat) (i : ℕ) : Mat :=
  if getEntry A i i then rowOpsB A i
  else
    match findSwapB A i with
    | some ix => rowOpsB (swapRows A i ix) i
    | none => A

/-- BinaryMatrix.determine_rank: rank = m − (number of rows among
0..M−1 whose Q entries are all zero). -/
def determineRank (M Q m : ℕ) (A : Mat) : ℤ :=
  (m : ℤ) - ((List.range M).countP
    (fun i => (List.range Q).all (fun j => !(getEntry A i j))) : ℤ)

/-- BinaryMatrix.compute_rank: forward pass over i = 0..m−2, backward pass
over i = m−1 down to 1, then determine_rank, with m = min(rows, cols). -/
def computeRank (M Q : ℕ) (A : Mat) : ℤ :=
  let m := min M Q
  let A1 := (List.range (m - 1)).foldl (fwdStep M) A
  let A2 := ((List.range' 1 (m - 1)).reverse).foldl bwdStep A1
  determineRank M Q m A2

/-- The list of GF(2) ranks of the floor(n/q²) disjoint q×q matrices that
RandomnessTester.matrix_rank builds from the sequence. -/
def mrRanks (bin : List Bool) (q : ℕ) : List ℤ :=
  (List.range (bin.length / (q*q))).map
    (fun im => computeRank q q
      ((List.range q).map
        (fun r => (((bin.drop (im * (q*q))).take (q*q)).drop (r*q)).take q)))

/-- The source's truncated product `for x in range(1, 50): piks[0] *= 1 - 1/2**x`
(hoisted to a constant; it does not depend on the input). -/
def mrPiksFold : ℚ :=
  (List.range' 1 49).foldl (fun acc x => acc * (1 - 1/(2^x : ℚ))) 1

/-- The `max_ranks` list of matrix_rank: blocks with full rank q, with rank
q−1, and the remaining blocks (the if/elif/else tally). -/
def mrCounts (bin : List Bool) (q : ℕ) : List ℕ :=
  [(mrRanks bin q).countP (fun r => decide (r = (q : ℤ))),
   (mrRanks bin q).countP (fun r => decide (¬ r = (q : ℤ) ∧ r = (q : ℤ) - 1)),
   (mrRanks bin q).countP (fun r => decide (¬ r = (q : ℤ) ∧ ¬ r = (q : ℤ) - 1))]

/-- The `piks` list of matrix_rank: [pf, 2·pf, 1 − pf − 2·pf]. -/
def mrPiksList : List ℚ :=
  [mrPiksFold, 2 * mrPiksFold, 1 - mrPiksFold - 2 * mrPiksFold]

/-- RandomnessTester.matrix_rank: with q*q = 0 the block count
`math.floor(n / (q*q))` (written num_m in the source, inlined here) raises;
with zero blocks returns the sentinel −1.0; otherwise tallies ranks into the
buckets (= q / = q−1 / else), forms the chi-squared against piks·num_m and
returns exp(−chi²/2). -/
def matrix_rank (SF : SpecialFuns) (bin : List Bool) (q : ℕ) : Option ℚ :=
  if q * q = 0 then none
  else if 0 < bin.length / (q * q) then
    (chiFold
      (fun i => (((mrCounts bin q).getD i 0 : ℚ)
        - mrPiksList.getD i 0 * ((bin.length / (q * q) : ℕ) : ℚ))^2)
      (fun i => mrPiksList.getD i 0 * ((bin.length / (q * q) : ℕ) : ℚ))
      (List.range 3)).map
      (fun c => SF.exp (-(c/2)))
  else some (-1)

/-- The claim's formula for the full-rank probability: the product over
x = 1..49 of (1 − 2⁻ˣ). -/
def piFullSpec : ℚ := ∏ x ∈ Finset.Icc 1 49, (1 - 1/(2^x : ℚ))

/-- The claim's chi-squared for the matrix-rank test: three buckets (rank q,
rank q−1, rank ≤ q−2), theoretical probabilities
[piFullSpec, 2·piFullSpec, 1 − piFullSpec − 2·piFullSpec]. -/
def mrChiSpec (bin : List Bool) (q : ℕ) : ℚ :=
  let nm : ℚ := (bin.length / (q*q) : ℕ)
  let c0 : ℚ := ((mrCounts bin q).getD 0 0 : ℕ)
  let c1 : ℚ := ((mrCounts bin q).getD 1 0 : ℕ)
  let c2 : ℚ := ((mrCounts bin q).getD 2 0 : ℕ)
  (c0 - piFullSpec * nm)^2 / (piFullSpec * nm)
    + (c1 - 2 * piFullSpec * nm)^2 / (2 * piFullSpec * nm)
    + (c2 - (1 - piFullSpec - 2 * piFullSpec) * nm)^2
        / ((1 - piFullSpec - 2 * piFullSpec) * nm)

/-- The sliding-window scan of non_overlapping_patterns inside one block:
`while j < block_size:` if the pattern matches at j, count it and jump past
it, else advance one bit.  The scan advances j by at least one per iteration
for a non-empty pattern, so fuel `block_size + 1` runs it to completion. -/
def nopScan (blockData pattern : List Bool) (psize bsize : ℕ) : ℕ → ℕ → ℕ
  | 0, _ => 0
  | Nat.succ fuel, j =>
    if j < bsize then
      if (blockData.drop j).take psize = pattern then
        1 + nopScan blockData pattern psize bsize fuel (j + psize)
      else
        nopScan blockData pattern psize bsize fuel (j + 1)
    else 0

/-- Python default argument of non_overlapping_patterns: pattern="000000001". -/
def nopDefaultPattern : List Bool :=
  [false, false, false, false, false, false, false, false, true]

/-- RandomnessTester.non_overlapping_patterns with explicit pattern and
num_blocks arguments: per-block non-overlapping match counts, theoretical
mean and variance, chi-squared (each term divided by the variance, raising if
it is zero), p = gammaincc(num_blocks/2, chi²/2).  `num_blocks = 0` makes
`math.floor(n/num_blocks)` raise. -/
def non_overlapping_patterns (SF : SpecialFuns) (bin pattern : List Bool)
    (num_blocks : ℕ) : Option ℚ :=
  let n := bin.length
  let psize := pattern.length
  if num_blocks = 0 then none
  else
    let bsize := n / num_blocks
    let counts := (List.range num_blocks).map
      (fun i => nopScan ((bin.drop (i * bsize)).take bsize) pattern psize bsize (bsize + 1) 0)
    let mean : ℚ := ((bsize : ℚ) - (psize : ℚ) + 1) / (2^psize : ℚ)
    let var : ℚ := (bsize : ℚ) *
      (1/(2^psize : ℚ) - (2 * (psize : ℚ) - 1)/(2^(psize * 2) : ℚ))
    (chiFold (fun i => ((counts.getD i 0 : ℚ) - mean)^2) (fun _ => var)
      (List.range num_blocks)).map
      (fun c => SF.gammaincc ((num_blocks : ℚ)/2) (c/2))

/-- Invocation of non_overlapping_patterns with both arguments left to their
Python defaults (pattern="000000001", num_blocks=8). -/
def non_overlapping_patterns_default (SF : SpecialFuns) (bin : List Bool) : Option ℚ :=
  non_overlapping_patterns SF bin nopDefaultPattern 8

/-- self.condition = 0.001, the significance threshold. -/
def aggCondition : ℚ := 1/1000

/-- RandomnessTester.get_aggregate_pass: `(npvals > condition).sum() / len(pvals)`
(raising on an empty list). -/
def get_aggregate_pass (pvals : List ℚ) : Option ℚ :=
  pydiv ((pvals.countP (fun p => decide (aggCondition < p)) : ℕ) : ℚ)
    ((pvals.length : ℕ) : ℚ)

/-- The per-(dataset, test) verdict printed by run_test_suite. -/
inductive Verdict
  | pass
  | fail
  | skip
deriving DecidableEq

/-- run_test_suite verdict logic: start FAIL, overwrite with PASS when the
aggregate pass fraction is ≥ 0.96, overwrite with SKIP when any sample
p-value equals −1.0. -/
def sampleVerdict (pvals : List ℚ) : Option Verdict :=
  (get_aggregate_pass pvals).map (fun frac =>
    let s := Verdict.fail
    let s := if 96/100 ≤ frac then Verdict.pass else s
    if 0 < pvals.count (-1 : ℚ) then Verdict.skip else s)

/-- The aggregate p-value report of run_test_suite: either the numeric value
or the "p=SKIPPED" marker. -/
inductive AggReport
  | skipped
  | value (p : ℚ)
deriving DecidableEq

/-- run_test_suite aggregate p-value display: "p=SKIPPED" replaces the
numeric aggregate whenever any sample p-value equals −1.0. -/
def aggregateReport (pvals : List ℚ) (aggPval : ℚ) : AggReport :=
  if 0 < pvals.count (-1 : ℚ) then AggReport.skipped else AggReport.value aggPval

/-! ## Helper lemmas -/

theorem pydiv_some {a b : ℚ} (h : b ≠ 0) : pydiv a b = some (a / b) := by
  simp [pydiv, h]

theorem chiFold_aux (ns ds : ℕ → ℚ) :
    ∀ (idx : List ℕ) (a : ℚ), 0 ≤ a → (∀ i ∈ idx, 0 ≤ ns i ∧ 0 < ds i) →
      ∃ c, idx.foldl
        (fun acc i => acc.bind (fun x => (pydiv (ns i) (ds i)).map (fun t => x + t)))
        (some a) = some c ∧ 0 ≤ c := by
  intro idx
  induction idx with
  | nil => intro a ha _; exact ⟨a, rfl, ha⟩
  | cons i rest ih =>
    intro a ha h
    have hi := h i (List.mem_cons_self i rest)
    have hrest : ∀ j ∈ rest, 0 ≤ ns j ∧ 0 < ds j :=
      fun j hj => h j (List.mem_cons_of_mem i hj)
    have hds : ds i ≠ 0 := ne_of_gt hi.2
    have hterm : 0 ≤ ns i / ds i := div_nonneg hi.1 (le_of_lt hi.2)
    have hstep : (some a).bind (fun x => (pydiv (ns i) (ds i)).map (fun t => x + t)) =
        some (a + ns i / ds i) := by
      simp [pydiv_some hds]
    rw [List.foldl_cons, hstep]
    exact ih (a + ns i / ds i) (by linarith) hrest

theorem chiFold_some {ns ds : ℕ → ℚ} {idx : List ℕ}
    (h : ∀ i ∈ idx, 0 ≤ ns i ∧ 0 < ds i) :
    ∃ c, chiFold ns ds idx = some c ∧ 0 ≤ c :=
  chiFold_aux ns ds idx 0 le_rfl h

theorem determineRank_bounds (M Q m : ℕ) (A : Mat) (hm : m ≤ M) :
    (m : ℤ) - M ≤ determineRank M Q m A ∧ determineRank M Q m A ≤ m := by
  unfold determineRank
  have h := List.countP_le_length
    (p := fun i => (List.range Q).all (fun j => !(getEntry A i j))) (l := List.range M)
  simp only [List.length_range] at h
  omega

theorem lr_exists_goodP (SF : SpecialFuns) (k : ℚ) (hk : 0 < k)
    (NS DS : ℕ → ℚ) (idx : List ℕ)
    (h : ∀ i ∈ idx, 0 ≤ NS i ∧ 0 < DS i) :
    ∃ p, (chiFold NS DS idx).map (fun c => SF.gammaincc (k/2) (c/2)) = some p ∧
      0 ≤ p ∧ p ≤ 1 ∧ p ≠ -1 := by
  obtain ⟨c, hc, hc0⟩ := chiFold_some h
  rw [hc]
  have hmem := SF.gammaincc_mem (k/2) (c/2) (by linarith) (by linarith)
  refine ⟨_, rfl, hmem.1, hmem.2, ?_⟩
  intro hcon
  simp only at hcon
  rw [hcon] at hmem
  linarith [hmem.1]

theorem foldl_mul_range' (f : ℕ → ℚ) :
    ∀ (n s : ℕ) (a : ℚ),
      (List.range' s n).foldl (fun acc x => acc * f x) a =
        a * ∏ i ∈ Finset.range n, f (s + i) := by
  intro n
  induction n with
  | zero => intro s a; simp
  | succ n ih =>
    intro s a
    rw [List.range'_succ, List.foldl_cons, ih (s+1), Finset.prod_range_succ']
    have he : ∀ i, s + 1 + i = s + (i + 1) := fun i => by omega
    simp only [he, Nat.add_zero]
    ring

theorem piFullSpec_range :
    piFullSpec = ∏ i ∈ Finset.range 49, (1 - 1/(2^(1+i) : ℚ)) := by
  rw [piFullSpec, show Finset.Icc 1 49 = Finset.Ico 1 50 from by rw [Nat.Ico_succ_right],
    Finset.prod_Ico_eq_prod_range]

theorem mrPiksFold_eq : mrPiksFold = piFullSpec := by
  rw [mrPiksFold, foldl_mul_range', one_mul, piFullSpec_range]

theorem piFullSpec_bounds : 0 < piFullSpec ∧ piFullSpec ≤ 21/64 := by
  have hfac : ∀ i : ℕ, 0 < 1 - 1/(2^(1+i) : ℚ) ∧ 1 - 1/(2^(1+i) : ℚ) ≤ 1 := by
    intro i
    have h1 : (1:ℚ) < 2^(1+i) := one_lt_pow₀ (by norm_num) (by omega)
    have h2 : (0:ℚ) < 2^(1+i) := by positivity
    constructor
    · have : 1/(2^(1+i) : ℚ) < 1 := by rw [div_lt_one h2]; exact h1
      linarith
    · have : 0 < 1/(2^(1+i) : ℚ) := by positivity
      linarith
  rw [piFullSpec_range]
  have hsplit : (∏ i ∈ Finset.Ico 0 3, (1 - 1/(2^(1+i) : ℚ))) *
      (∏ i ∈ Finset.Ico 3 49, (1 - 1/(2^(1+i) : ℚ))) =
      ∏ i ∈ Finset.Ico 0 49, (1 - 1/(2^(1+i) : ℚ)) :=
    Finset.prod_Ico_consecutive _ (by norm_num) (by norm_num)
  have hr : Finset.range 49 = Finset.Ico 0 49 := by rw [Finset.range_eq_Ico]
  have hpre : (∏ i ∈ Finset.Ico 0 3, (1 - 1/(2^(1+i) : ℚ))) = 21/64 := by
    rw [← Finset.range_eq_Ico]
    rw [Finset.prod_range_succ, Finset.prod_range_succ, Finset.prod_range_succ,
      Finset.prod_range_zero]
    norm_num
  have htail_pos : 0 < ∏ i ∈ Finset.Ico 3 49, (1 - 1/(2^(1+i) : ℚ)) :=
    Finset.prod_pos (fun i _ => (hfac i).1)
  have htail_le : (∏ i ∈ Finset.Ico 3 49, (1 - 1/(2^(1+i) : ℚ))) ≤ 1 :=
    Finset.prod_le_one (fun i _ => le_of_lt (hfac i).1) (fun i _ => (hfac i).2)
  rw [hr, ← hsplit, hpre]
  constructor
  · positivity
  · nlinarith

theorem chiFold_three (ns ds : ℕ → ℚ) (h0 : ds 0 ≠ 0) (h1 : ds 1 ≠ 0) (h2 : ds 2 ≠ 0) :
    chiFold ns ds (List.range 3) = some (ns 0 / ds 0 + ns 1 / ds 1 + ns 2 / ds 2) := by
  have h3 : List.range 3 = [0, 1, 2] := rfl
  rw [chiFold, h3]
  simp [pydiv_some h0, pydiv_some h1, pydiv_some h2]

theorem foldl_add_const (f : ℕ → ℚ) (c : ℚ) :
    ∀ (l : List ℕ) (a : ℚ), (∀ i ∈ l, f i = c) →
      l.foldl (fun x i => x + f i) a = a + l.length * c := by
  intro l
  induction l with
  | nil => intro a _; simp
  | cons i rest ih =>
    intro a h
    rw [List.foldl_cons, ih _ (fun j hj => h j (List.mem_cons_of_mem i hj)),
      h i (List.mem_cons_self i rest)]
    simp only [List.length_cons]
    push_cast
    ring

/-! ## Claims -/

/-- C1: the spec's output contract says every test returns a float in [0,1]
or exactly −1.0 and lets no exception escape.  The code violates it:
`independent_runs` on the all-zero 9-bit string passes the balance guard
(|0 − 0.5| = 0.5 ≤ 2/3 = tau) and then divides by
2·sqrt(2n)·p·(1−p) = 0, raising `ZeroDivisionError` (modelled as `none`).
This evaluates the embedded code at that failing input. -/
theorem independent_runs_zero_variance_raises :
    independent_runs modelSF (List.replicate 9 false) = none := by
  simp [independent_runs, pydiv, modelSF, mSqrt, transitions]
  rw [abs_of_nonneg (by norm_num)]
  norm_num

/-- C2: for a nonempty per-sample p-value list, the aggregate pass fraction
is the fraction of values strictly above 0.001; the verdict is PASS iff that
fraction is ≥ 0.96 and FAIL otherwise; and any −1.0 sample overrides the
verdict to SKIP and replaces the reported aggregate p-value by the SKIPPED
marker. -/
theorem aggregate_pass_verdict_spec (pvals : List ℚ) (h : pvals ≠ []) :
    get_aggregate_pass pvals =
      some (((pvals.filter (fun p => decide (aggCondition < p))).length : ℚ)
        / (pvals.length : ℚ)) ∧
    ((-1 : ℚ) ∈ pvals →
      sampleVerdict pvals = some Verdict.skip ∧
      ∀ x : ℚ, aggregateReport pvals x = AggReport.skipped) ∧
    ((-1 : ℚ) ∉ pvals →
      sampleVerdict pvals =
        some (if 96/100 ≤ ((pvals.filter (fun p => decide (aggCondition < p))).length : ℚ)
            / (pvals.length : ℚ) then Verdict.pass else Verdict.fail) ∧
      ∀ x : ℚ, aggregateReport pvals x = AggReport.value x) := by
  have hlen : ((pvals.length : ℕ) : ℚ) ≠ 0 := by
    have hne : pvals.length ≠ 0 := by
      intro h0
      exact h (List.eq_nil_of_length_eq_zero h0)
    exact_mod_cast hne
  have hpass : get_aggregate_pass pvals =
      some (((pvals.filter (fun p => decide (aggCondition < p))).length : ℚ)
        / (pvals.length : ℚ)) := by
    rw [get_aggregate_pass, pydiv_some hlen, List.countP_eq_length_filter]
  refine ⟨hpass, ?_, ?_⟩
  · intro hmem
    have hcount : 0 < pvals.count (-1 : ℚ) := List.count_pos_iff.mpr hmem
    constructor
    · rw [sampleVerdict, hpass]
      simp [hcount]
    · intro x
      rw [aggregateReport, if_pos hcount]
  · intro hmem
    have hcount : ¬ 0 < pvals.count (-1 : ℚ) := by
      simp [List.count_pos_iff]
      exact hmem
    constructor
    · rw [sampleVerdict, hpass]
      simp only [Option.map_some, if_neg hcount]
      rfl
    · intro x
      rw [aggregateReport, if_neg hcount]

/-- C2 witness: a sample list containing the sentinel is reported SKIP. -/
theorem aggregate_pass_verdict_spec_witness :
    sampleVerdict [(-1 : ℚ), 1/2, 0] = some Verdict.skip :=
  ((aggregate_pass_verdict_spec [(-1 : ℚ), 1/2, 0] (by simp)).2.1 (by simp)).1

/-- C3 counterexample: the claim says that whenever the balance guard fails,
the function returns erfc of the runs statistic.  On the all-zero 4-bit
string the guard fails (0.5 ≤ 1 = tau) but p·(1−p) = 0, so the code raises
`ZeroDivisionError` instead of returning any value. -/
theorem independent_runs_formula_cex :
    independent_runs modelSF (List.replicate 4 false) = none := by
  simp [independent_runs, pydiv, modelSF, mSqrt, transitions]
  rw [abs_of_nonneg (by norm_num)]
  norm_num

/-- C3 (amended): for a nonempty sequence with pi = ones/n: if
|pi − 0.5| > 2/sqrt(n) then independent_runs returns exactly 0.0 (not the
sentinel); otherwise, provided pi·(1−pi) ≠ 0, it returns
erfc(|V − 2n·pi·(1−pi)| / (2·sqrt(2n)·pi·(1−pi))) with
V = 1 + number of adjacent positions with differing bits (when
pi·(1−pi) = 0 the division raises instead, per the counterexample). -/
theorem independent_runs_spec (SF : SpecialFuns) (bin : List Bool) (h : bin ≠ []) :
    ((|((bin.count true : ℚ)/(bin.length : ℚ)) - 1/2| > 2 / SF.sqrt (bin.length : ℚ)) →
        independent_runs SF bin = some 0) ∧
    (¬(|((bin.count true : ℚ)/(bin.length : ℚ)) - 1/2| > 2 / SF.sqrt (bin.length : ℚ)) →
      ((bin.count true : ℚ)/(bin.length : ℚ)) *
          (1 - (bin.count true : ℚ)/(bin.length : ℚ)) ≠ 0 →
        independent_runs SF bin =
          some (SF.erfc (|(1 + (transitions bin : ℚ)) -
              2 * (bin.length : ℚ) * ((bin.count true : ℚ)/(bin.length : ℚ)) *
                (1 - (bin.count true : ℚ)/(bin.length : ℚ))| /
            (2 * SF.sqrt (2 * (bin.length : ℚ)) * ((bin.count true : ℚ)/(bin.length : ℚ)) *
              (1 - (bin.count true : ℚ)/(bin.length : ℚ)))))) := by
  have hn0 : bin.length ≠ 0 := fun h0 => h (List.eq_nil_of_length_eq_zero h0)
  have hn : ((bin.length : ℕ) : ℚ) ≠ 0 := by exact_mod_cast hn0
  constructor
  · intro hg
    simp only [independent_runs, pydiv_some hn]
    rw [if_pos hg]
  · intro hg hp
    have h1n : (1 : ℚ) ≤ 2 * (bin.length : ℚ) := by
      have h1 : 1 ≤ bin.length := Nat.one_le_iff_ne_zero.mpr hn0
      have h2 : (1 : ℚ) ≤ (bin.length : ℚ) := by exact_mod_cast h1
      linarith
    have hs : 0 < SF.sqrt (2 * (bin.length : ℚ)) := SF.sqrt_pos _ h1n
    obtain ⟨hp1, hp2⟩ := mul_ne_zero_iff.mp hp
    have hden : 2 * SF.sqrt (2 * (bin.length : ℚ)) *
        ((bin.count true : ℚ)/(bin.length : ℚ)) *
        (1 - (bin.count true : ℚ)/(bin.length : ℚ)) ≠ 0 :=
      mul_ne_zero (mul_ne_zero (mul_ne_zero two_ne_zero (ne_of_gt hs)) hp1) hp2
    simp only [independent_runs, pydiv_some hn]
    rw [if_neg hg, pydiv_some hden]
    rfl

/-- C3 witness: on 1010 the guard fails, the variance is nonzero, and the
returned value is erfc of the statistic (1/2 under the model instance). -/
theorem independent_runs_spec_witness :
    independent_runs modelSF [true, false, true, false] = some (1/2) := by
  have h := (independent_runs_spec modelSF [true, false, true, false] (by simp)).2
    (by norm_num [modelSF, mSqrt, List.count_cons])
    (by norm_num [List.count_cons])
  exact h

/-- C4 counterexample: the claim adds that only the longest-runs test skips
sequences shorter than 128 bits; but matrix_rank with the battery's default
dimension q = 32 also returns the sentinel there (any n < 1024 has zero
1024-bit blocks), e.g. on a 5-bit input. -/
theorem longest_runs_not_only_skipper :
    longest_runs modelSF [false, false, false, false, false] = some (-1) ∧
    matrix_rank modelSF [false, false, false, false, false] 32 = some (-1) := by
  constructor
  · simp [longest_runs]
  · rw [matrix_rank, if_neg (by norm_num), if_neg (by norm_num)]

/-- C4 (amended): every sequence shorter than 128 bits makes longest_runs
return exactly the sentinel −1.0 (though it is not the only test that can
skip such lengths: matrix_rank at the default dimension also does); every
sequence of length ≥ 128 yields a numeric p-value in [0,1], never the
sentinel. -/
theorem longest_runs_skip_spec (SF : SpecialFuns) (bin : List Bool) :
    (bin.length < 128 → longest_runs SF bin = some (-1)) ∧
    (128 ≤ bin.length →
      ∃ p, longest_runs SF bin = some p ∧ 0 ≤ p ∧ p ≤ 1 ∧ p ≠ -1) := by
  constructor
  · intro h
    simp [longest_runs, h]
  · intro h
    have hn : ¬ bin.length < 128 := not_lt.2 h
    rw [longest_runs, if_neg hn]
    by_cases h1 : bin.length < 6272
    · have hP : lrParams bin.length = (3, 8, [1, 2, 3, 4],
        [21484375/100000000, 3671875/10000000, 23046875/100000000, 1875/10000]) := by
        rw [lrParams, if_pos h1]
      simp only [hP]
      have hnbQ : 0 < ((bin.length / 8 : ℕ) : ℚ) := by
        exact_mod_cast Nat.div_pos (by omega) (by norm_num)
      refine lr_exists_goodP SF _ (by norm_num) _ _ _ ?_
      intro i hi
      refine ⟨sq_nonneg _, mul_pos hnbQ ?_⟩
      have hi4 : i < 4 := List.mem_range.mp hi
      interval_cases i <;> norm_num
    · by_cases h2 : bin.length < 75000
      · have hP : lrParams bin.length = (5, 128, [4, 5, 6, 7, 8, 9],
          [1174035788/10000000000, 242955959/1000000000, 249363483/1000000000,
           17517706/100000000, 102701071/1000000000, 112398847/1000000000]) := by
          rw [lrParams, if_neg h1, if_pos h2]
        simp only [hP]
        have hnbQ : 0 < ((bin.length / 128 : ℕ) : ℚ) := by
          exact_mod_cast Nat.div_pos (by omega) (by norm_num)
        refine lr_exists_goodP SF _ (by norm_num) _ _ _ ?_
        intro i hi
        refine ⟨sq_nonneg _, mul_pos hnbQ ?_⟩
        have hi6 : i < 6 := List.mem_range.mp hi
        interval_cases i <;> norm_num
      · have hP : lrParams bin.length = (6, 10000, [10, 11, 12, 13, 14, 15, 16],
          [882/10000, 2092/10000, 2483/10000, 1933/10000, 1208/10000,
           675/10000, 727/10000]) := by
          rw [lrParams, if_neg h1, if_neg h2]
        simp only [hP]
        have hnbQ : 0 < ((bin.length / 10000 : ℕ) : ℚ) := by
          exact_mod_cast Nat.div_pos (by omega) (by norm_num)
        refine lr_exists_goodP SF _ (by norm_num) _ _ _ ?_
        intro i hi
        refine ⟨sq_nonneg _, mul_pos hnbQ ?_⟩
        have hi7 : i < 7 := List.mem_range.mp hi
        interval_cases i <;> norm_num

/-- C4 witness: a 130-bit sequence is long enough and yields a numeric
p-value, not the sentinel. -/
theorem longest_runs_skip_spec_witness :
    ∃ p, longest_runs modelSF (List.replicate 130 false) = some p ∧
      0 ≤ p ∧ p ≤ 1 ∧ p ≠ -1 :=
  (longest_runs_skip_spec modelSF (List.replicate 130 false)).2 (by simp)

/-- C5 counterexample: the claim quantifies over every matrix dimension q,
but for q = 0 the block count `math.floor(n/(q*q))` divides by zero and the
code raises instead of returning the sentinel. -/
theorem matrix_rank_q_zero_raises :
    matrix_rank modelSF [true, true, true, true] 0 = none := rfl

/-- C5 (amended, for q ≥ 1): when zero q²-bit blocks fit matrix_rank returns
the sentinel −1.0; otherwise it returns exp(−chi²/2) where chi² is taken
over the three rank buckets (rank q / rank q−1 / remaining blocks) with
theoretical probabilities [pf, 2·pf, 1 − pf − 2·pf] and
pf = product over x = 1..49 of (1 − 2⁻ˣ).  (For q = 0 the block count
divides by zero and raises, per the counterexample.) -/
theorem matrix_rank_spec (SF : SpecialFuns) (bin : List Bool) (q : ℕ) (hq : 0 < q) :
    (bin.length / (q*q) = 0 → matrix_rank SF bin q = some (-1)) ∧
    (0 < bin.length / (q*q) →
      matrix_rank SF bin q = some (SF.exp (-(mrChiSpec bin q / 2)))) := by
  have hqq : ¬ q * q = 0 := by
    have := Nat.mul_pos hq hq
    omega
  constructor
  · intro h
    rw [matrix_rank, if_neg hqq, if_neg (by omega)]
  · intro h
    rw [matrix_rank, if_neg hqq, if_pos h]
    obtain ⟨hpos, hub⟩ := piFullSpec_bounds
    have hnm : 0 < ((bin.length/(q*q) : ℕ) : ℚ) := by exact_mod_cast h
    have hpf : 0 < mrPiksFold := by rw [mrPiksFold_eq]; exact hpos
    have hpf2 : 0 < 1 - mrPiksFold - 2 * mrPiksFold := by
      rw [mrPiksFold_eq]; linarith
    have g0 : mrPiksList.getD 0 0 = mrPiksFold := rfl
    have g1 : mrPiksList.getD 1 0 = 2 * mrPiksFold := rfl
    have g2 : mrPiksList.getD 2 0 = 1 - mrPiksFold - 2 * mrPiksFold := rfl
    have hd0 : mrPiksList.getD 0 0 * ((bin.length/(q*q) : ℕ) : ℚ) ≠ 0 := by
      rw [g0]; exact ne_of_gt (mul_pos hpf hnm)
    have hd1 : mrPiksList.getD 1 0 * ((bin.length/(q*q) : ℕ) : ℚ) ≠ 0 := by
      rw [g1]; exact ne_of_gt (mul_pos (by linarith) hnm)
    have hd2 : mrPiksList.getD 2 0 * ((bin.length/(q*q) : ℕ) : ℚ) ≠ 0 := by
      rw [g2]; exact ne_of_gt (mul_pos hpf2 hnm)
    rw [chiFold_three _ _ hd0 hd1 hd2, g0, g1, g2, mrPiksFold_eq]
    rfl

/-- C5 witness: one 2×2 block of ones (rank 1 = q−1) yields exp(−chi²/2)
with the stated chi-squared. -/
theorem matrix_rank_spec_witness :
    matrix_rank modelSF [true, true, true, true] 2 =
      some (modelSF.exp (-(mrChiSpec [true, true, true, true] 2 / 2))) :=
  (matrix_rank_spec modelSF [true, true, true, true] 2 (by norm_num)).2 (by decide)

/-- C6: the spec requires zero-block and zero-variance edge cases to return
the sentinel −1.0 instead of propagating numeric errors.  The code does
neither: `independent_runs` on sixteen ones reaches the runs statistic with
p·(1−p) = 0 and raises `ZeroDivisionError` (modelled as `none`), and
`block_frequency` with zero blocks calls `gammaincc(0, 0)` (outside the
domain a > 0, where scipy yields nan), not −1.0. -/
theorem edge_cases_not_guarded :
    independent_runs modelSF (List.replicate 16 true) = none ∧
    ∀ SF : SpecialFuns,
      block_frequency SF (List.replicate 64 false) 128 = some (SF.gammaincc 0 0) := by
  constructor
  · simp [independent_runs, pydiv, modelSF, mSqrt, transitions]
    rw [abs_of_nonneg (by norm_num)]
    norm_num
  · intro SF
    simp [block_frequency]

/-- C7 counterexample: with M = 1 the block-frequency p-value is
gammaincc(n/2, n/2) (mirroring gammaincc(1,1) = 1/e ≈ 0.3679 on a 2-bit
input) while monobit of the balanced 2-bit input is erfc(0) = 1; the model
instance mirrors those real values, and the two differ. -/
theorem block_frequency_M1_ne_monobit :
    block_frequency cexSF [true, false] 1 ≠ monobit cexSF [true, false] := by
  have hbf : block_frequency cexSF [true, false] 1 = some (3679/10000) := by
    rw [block_frequency, if_neg (by norm_num)]
    norm_num [List.range_succ, List.count_cons, cexSF]
  have hmb : monobit cexSF [true, false] = some 1 := by
    rw [monobit]
    norm_num [cexSF, mSqrt, pydiv]
  rw [hbf, hmb]
  norm_num

/-- C7 (amended): with M = 1 every single-bit block contributes
(pi − 1/2)² = 1/4, so chi² = n independently of the data and
block_frequency returns gammaincc(n/2, n/2); this does not equal the
monobit p-value in general. -/
theorem block_frequency_M1_value (SF : SpecialFuns) (bin : List Bool) :
    block_frequency SF bin 1 =
      some (SF.gammaincc ((bin.length : ℚ)/2) ((bin.length : ℚ)/2)) := by
  rw [block_frequency, if_neg (by norm_num)]
  simp only [Nat.div_one, Nat.cast_one, mul_one]
  rw [foldl_add_const
    (f := fun i => ((((bin.drop i).take 1).count true : ℚ)/(1 : ℚ) - 1/2)^2)
    (c := 1/4) (List.range bin.length) 0 ?_]
  · simp only [List.length_range, zero_add]
    congr 1
    ring
  · intro i hi
    have hilt : i < bin.length := List.mem_range.mp hi
    have hlen : ((bin.drop i).take 1).length = 1 := by
      rw [List.length_take, List.length_drop]
      omega
    have hcnt : ((bin.drop i).take 1).count true ≤ 1 := by
      have hle := List.count_le_length true ((bin.drop i).take 1)
      rw [hlen] at hle
      exact hle
    interval_cases hh : ((bin.drop i).take 1).count true <;> (simp only [hh]; norm_num)

/-- C8 counterexample: the default pattern of non_overlapping_patterns is
"000000001", not "11110000", and its length is 9, not 8. -/
theorem nop_default_pattern_cex :
    nopDefaultPattern ≠ [true, true, true, true, false, false, false, false] ∧
    nopDefaultPattern.length ≠ 8 := by
  decide

/-- C8 (amended): invoking non_overlapping_patterns without explicit
arguments uses the default pattern "000000001" of length 9 and the default
num_blocks = 8 (the battery passes "11110000" explicitly instead). -/
theorem nop_default_args (SF : SpecialFuns) (bin : List Bool) :
    non_overlapping_patterns_default SF bin =
      non_overlapping_patterns SF bin nopDefaultPattern 8 ∧
    nopDefaultPattern.length = 9 :=
  ⟨rfl, rfl⟩

/-- C9: BinaryMatrix.compute_rank of the fixed 6×6 matrix with rows
100000, 000001, 100001, 101010, 001011, 000010 equals 4. -/
theorem binary_matrix_rank_example :
    computeRank 6 6 [[true, false, false, false, false, false],
                     [false, false, false, false, false, true],
                     [true, false, false, false, false, true],
                     [true, false, true, false, true, false],
                     [false, false, true, false, true, true],
                     [false, false, false, false, true, false]] = 4 := by
  decide

/-- C10: on a square q×q 0/1 matrix, compute_rank terminates (it is a total
function of this embedding) and returns an integer r with 0 ≤ r ≤ q, so each
block falls in exactly one of the buckets rank q, rank q−1, rank ≤ q−2. -/
theorem computeRank_bounds (q : ℕ) (A : Mat) (hA : A.length = q)
    (hrows : ∀ r ∈ A, r.length = q) :
    0 ≤ computeRank q q A ∧ computeRank q q A ≤ q ∧
      (computeRank q q A = q ∨ computeRank q q A = (q : ℤ) - 1 ∨
        computeRank q q A ≤ (q : ℤ) - 2) := by
  have key : 0 ≤ computeRank q q A ∧ computeRank q q A ≤ q := by
    unfold computeRank
    simp only [min_self]
    have h := determineRank_bounds q q q
      (((List.range' 1 (q - 1)).reverse).foldl bwdStep
        ((List.range (q - 1)).foldl (fwdStep q) A)) le_rfl
    omega
  exact ⟨key.1, key.2, by omega⟩

/-- C10 witness: the 2×2 identity matrix. -/
theorem computeRank_bounds_witness :
    0 ≤ computeRank 2 2 [[true, false], [false, true]] ∧
    computeRank 2 2 [[true, false], [false, true]] ≤ 2 ∧
      (computeRank 2 2 [[true, false], [false, true]] = 2 ∨
       computeRank 2 2 [[true, false], [false, true]] = (2 : ℤ) - 1 ∨
       computeRank 2 2 [[true, false], [false, true]] ≤ (2 : ℤ) - 2) :=
  computeRank_bounds 2 [[true, false], [false, true]] (by decide) (by decide)
